import Mathlib

/-!
# A shallow embedding of the DocetOS kernel core

Definitions below are translated from the C sources of DocetOS:
machine integers (`uint32_t`) become `Nat` with explicit `% 2^32` where
overflow matters, pointers become `Nat` ids with `0` playing the role of
`NULL`, global kernel state becomes the explicit record `KState`, and the
C loops become fuel-indexed recursions returning `Option` (`none` models
an out-of-bounds access, a blocked task, or fuel exhaustion, as noted at
each definition).
-/

namespace DocetOS

/-- `2^32`: the modulus of all `uint32_t` arithmetic in the sources. -/
def U32 : Nat := 4294967296

/-- `MAX_TASKS` from `roundRobin.h` (default configuration). -/
def MAX_TASKS : Nat := 15

/-- `PRIORITY_LEVELS` from `roundRobin.h` (default configuration). -/
def PRIORITY_LEVELS : Nat := 5

/-- `PRIORITY_MAX = PRIORITY_LEVELS - 1` from `roundRobin.h`. -/
def PRIORITY_MAX : Nat := PRIORITY_LEVELS - 1

/-- `HALF_OF_UINT32_T_MAX` from `os_internal_def.h`: the literal `0x7FFFFFFF`,
that is `2^31 - 1` (not `2^31`). -/
def HALF_OF_UINT32_T_MAX : Nat := 0x7FFFFFFF

/-- Unsigned 32-bit subtraction `(a - b)` as computed by the C casts
`(uint32_t)((uint32_t)a - (uint32_t)b)`. -/
def u32sub (a b : Nat) : Nat := (a % U32 + (U32 - b % U32)) % U32

/-- The macro `sleep_time1IsAfterTime2(time_1, time_2, ref_time)` from
`sleep.c`: compares the unsigned distances of the two times from the
reference time. -/
def sleep_time1IsAfterTime2 (time1 time2 ref : Nat) : Bool :=
  decide (u32sub time2 ref < u32sub time1 ref)

/-- `OS_Semaphore_t` from `semaphore.h`: token count and ceiling
(`max_tokens = 0` means unbounded). The `wait_queue_head` pointer lives in
the surrounding state where a claim needs it and is omitted here. -/
structure OS_Semaphore where
  tokens : Nat
  max_tokens : Nat
deriving DecidableEq, Repr

/-- `OS_semaphoreInitialise` from `semaphore.c`: stores the ceiling and the
initial token count, clamping `init_tokens` down to `size` when it is larger
(the clamp assignment is ordinary code executed in every build; the
`ASSERT_DEBUG` next to it only adds a debug-build breakpoint). -/
def OS_semaphoreInitialise (size init_tokens : Nat) : OS_Semaphore :=
  { max_tokens := size
    tokens := if init_tokens > size then size else init_tokens }

/-- `OS_semaphoreInitialiseBinary` from `semaphore.c`: ceiling 1, tokens
clamped to at most 1.  As in `OS_semaphoreInitialise`, the clamp
`_init_full = semaphore->max_tokens;` is ordinary code outside the
`ASSERT_DEBUG` macro, so it executes in release builds as well (`debug.h` is
not among the sources; per the specification debug assertions are no-ops in
release builds and a breakpoint in debug builds, and in neither build do they
suppress the statement after them). -/
def OS_semaphoreInitialiseBinary (init_full : Nat) : OS_Semaphore :=
  { max_tokens := 1
    tokens := if init_full > 1 then 1 else init_full }

/-- `OS_semaphoreInitialiseCounting` from `semaphore.c`. -/
def OS_semaphoreInitialiseCounting : OS_Semaphore :=
  { max_tokens := 0, tokens := 0 }

/-- One successful-`STREX` iteration of `OS_semaphoreTake` from
`semaphore.c`, in the sequential (single task running to completion) model:
if a token is available it is taken (and the wait queue notified, which
leaves the token count alone), otherwise the task enters the wait path,
modelled by `none`. -/
def OS_semaphoreTake (s : OS_Semaphore) : Option OS_Semaphore :=
  if 0 < s.tokens then some { s with tokens := s.tokens - 1 } else none

/-- One successful-`STREX` iteration of `OS_semaphoreGive` from
`semaphore.c`: if the semaphore is not full, or has no ceiling
(`max_tokens == 0`), the token count is incremented (`uint32_t` wraparound);
otherwise the task enters the wait path, modelled by `none`. -/
def OS_semaphoreGive (s : OS_Semaphore) : Option OS_Semaphore :=
  if s.tokens < s.max_tokens ∨ s.max_tokens = 0 then
    some { s with tokens := (s.tokens + 1) % U32 }
  else none

/-- `OS_Mutex_t` from `mutex.h`: owning TCB (`0` = free) and recursion
counter.  The `wait_queue_head` lives in the surrounding state where a claim
needs it and is omitted here. -/
structure OS_Mutex where
  tcb : Nat
  counter : Nat
deriving DecidableEq, Repr

/-- `OS_mutexInitialise` from `mutex.c`. -/
def OS_mutexInitialise : OS_Mutex :=
  { tcb := 0, counter := 0 }

/-- A completed `OS_mutexAcquire` by task `cur` (`OS_currentTCB()`), from
`mutex.c`, in the sequential model: the acquire loop completes when the mutex
is free (successful `STREX` of `cur` into the owner word) or already owned by
`cur`; in both cases the recursion `counter` is then incremented (`uint32_t`
wraparound).  If another task owns the mutex the call does not complete
(wait path), modelled by `none`. -/
def OS_mutexAcquire (cur : Nat) (m : OS_Mutex) : Option OS_Mutex :=
  if m.tcb = 0 then some { tcb := cur, counter := (m.counter + 1) % U32 }
  else if m.tcb = cur then some { m with counter := (m.counter + 1) % U32 }
  else none

/-- `OS_mutexRelease` by task `cur`, from `mutex.c`: only acts when `cur`
owns the mutex; decrements `counter` (`uint32_t` wraparound), and when it
reaches zero clears the owner and notifies the wait queue.  The returned
`Bool` records whether `_OS_notify` was invoked. -/
def OS_mutexRelease (cur : Nat) (m : OS_Mutex) : OS_Mutex × Bool :=
  if cur = m.tcb then
    let c := (m.counter + (U32 - 1)) % U32
    if c = 0 then ({ tcb := 0, counter := c }, true)
    else ({ m with counter := c }, false)
  else (m, false)

/-- `n` consecutive completed `OS_mutexAcquire` calls by task `cur`. -/
def mutexAcquireN (cur : Nat) : Nat → OS_Mutex → Option OS_Mutex
  | 0, m => some m
  | n + 1, m => (OS_mutexAcquire cur m).bind (mutexAcquireN cur n)

/-- Pointwise update of a `Nat → Nat` map (used for byte buffers, priority
arrays and the sleep-heap array). -/
def updFun (f : Nat → Nat) (i v : Nat) : Nat → Nat :=
  fun j => if j = i then v else f j

/-- The byte-by-byte `memcpy(dst_off, item, n)` of `queue.c`: writes the
bytes of `item` into the buffer starting at offset `off`. -/
def writeBytes : (Nat → Nat) → Nat → List Nat → (Nat → Nat)
  | buf, _, [] => buf
  | buf, off, b :: bs => writeBytes (updFun buf off b) (off + 1) bs

/-- The byte-by-byte `memcpy(item_buffer, src_off, n)` of `queue.c`: reads
`n` bytes from the buffer starting at offset `off`. -/
def readBytes (buf : Nat → Nat) (off n : Nat) : List Nat :=
  (List.range n).map fun j => buf (off + j)

/-- `OS_Queue_t` from `queue.h`.  Pointers into the backing memory are kept
as byte offsets from `queue->start`; `endOff` is the offset of `queue->end`,
which the initialiser points at the LAST byte of the backing memory. -/
structure OS_Queue where
  length : Nat
  item_size : Nat
  buf : Nat → Nat
  endOff : Nat
  head : Nat
  tail : Nat
  mutex_rw : OS_Mutex
  sem_r : OS_Semaphore
  sem_w : OS_Semaphore

/-- `OS_queueInitialise` from `queue.c`:
`end = start + (length * item_size - 1)` (the last byte), `head = tail =
start`, read semaphore `(max = length, tokens = 0)`, write semaphore
`(max = length, tokens = length)`. -/
def OS_queueInitialise (len isize : Nat) : OS_Queue :=
  { length := len
    item_size := isize
    buf := fun _ => 0
    endOff := len * isize - 1
    head := 0
    tail := 0
    mutex_rw := OS_mutexInitialise
    sem_r := OS_semaphoreInitialise len 0
    sem_w := OS_semaphoreInitialise len len }

/-- `OS_queueEnqueue` from `queue.c`, executed by task `cur` in the
sequential model: take a write token, acquire the mutex, `memcpy` the item
to `head`, advance `head` by `item_size` wrapping when `head >= end`, give a
read token, release the mutex.  `none` models a blocking semaphore or mutex
step. -/
def OS_queueEnqueue (cur : Nat) (q : OS_Queue) (item : List Nat) : Option OS_Queue :=
  (OS_semaphoreTake q.sem_w).bind fun sw =>
  (OS_mutexAcquire cur q.mutex_rw).bind fun m =>
  let buf := writeBytes q.buf q.head item
  let h := q.head + q.item_size
  let h := if q.endOff ≤ h then 0 else h
  (OS_semaphoreGive q.sem_r).map fun sr =>
  { q with buf := buf, head := h, sem_w := sw, sem_r := sr
           mutex_rw := (OS_mutexRelease cur m).1 }

/-- `OS_queueDequeue` from `queue.c`, executed by task `cur` in the
sequential model: take a read token, acquire the mutex, `memcpy` out
`item_size` bytes from `tail`, advance `tail` by `item_size` wrapping when
`tail >= end`, give a write token, release the mutex. -/
def OS_queueDequeue (cur : Nat) (q : OS_Queue) : Option (List Nat × OS_Queue) :=
  (OS_semaphoreTake q.sem_r).bind fun sr =>
  (OS_mutexAcquire cur q.mutex_rw).bind fun m =>
  let out := readBytes q.buf q.tail q.item_size
  let t := q.tail + q.item_size
  let t := if q.endOff ≤ t then 0 else t
  (OS_semaphoreGive q.sem_w).map fun sw =>
  (out, { q with tail := t, sem_r := sr, sem_w := sw
                 mutex_rw := (OS_mutexRelease cur m).1 })

/-- `OS_MemPool_t` from `mempool.h`: free-list head (`0` = empty) plus the
intrusive storage: `mem a` is the machine word stored at block address `a`
(for a free block, the address of the next free block). -/
structure OS_MemPool where
  head : Nat
  mem : Nat → Nat
  mutex_rw : OS_Mutex
  block_avail : OS_Semaphore

/-- `memPool_add` from `mempool.c`: `*item = head; head = item`. -/
def memPool_add (p : OS_MemPool) (item : Nat) : OS_MemPool :=
  { p with mem := updFun p.mem item p.head, head := item }

/-- `OS_memPoolInitialise` from `mempool.c`: with backing memory at `start`,
adds `n` blocks at addresses `start + i * size` (semaphore full); with no
memory (`none`), starts empty (semaphore tokens 0, ceiling `n`). -/
def OS_memPoolInitialise (static_memory : Option Nat) (n size : Nat) : OS_MemPool :=
  match static_memory with
  | some start =>
    (List.range n).foldl (fun p i => memPool_add p (start + i * size))
      { head := 0, mem := fun _ => 0, mutex_rw := OS_mutexInitialise
        block_avail := OS_semaphoreInitialise n n }
  | none =>
    { head := 0, mem := fun _ => 0, mutex_rw := OS_mutexInitialise
      block_avail := OS_semaphoreInitialise n 0 }

/-- `OS_memPoolAllocate` from `mempool.c`, executed by task `cur` in the
sequential model: take the availability semaphore, acquire the mutex,
`block = head; head = *block`, release the mutex, return `block`. -/
def OS_memPoolAllocate (cur : Nat) (p : OS_MemPool) : Option (Nat × OS_MemPool) :=
  (OS_semaphoreTake p.block_avail).bind fun sem =>
  (OS_mutexAcquire cur p.mutex_rw).map fun m =>
  (p.head, { p with head := p.mem p.head, block_avail := sem
                    mutex_rw := (OS_mutexRelease cur m).1 })

/-- `OS_memPoolDeallocate` from `mempool.c`, executed by task `cur` in the
sequential model: acquire the mutex, `memPool_add`, give the semaphore, then
release the mutex. -/
def OS_memPoolDeallocate (cur : Nat) (p : OS_MemPool) (item : Nat) : Option OS_MemPool :=
  (OS_mutexAcquire cur p.mutex_rw).bind fun m =>
  let p1 := memPool_add p item
  (OS_semaphoreGive p1.block_avail).map fun sem =>
  { p1 with block_avail := sem, mutex_rw := (OS_mutexRelease cur m).1 }

/-- `OS_TCB_t` from `task.h`.  The stack pointer is not modelled; `prev` and
`next` are TCB ids with `0` for `NULL`. -/
structure OS_TCB where
  state : Nat
  priority : Nat
  data : Nat
  prev : Nat
  next : Nat
deriving DecidableEq, Repr

/-- Pointwise update of the TCB store. -/
def updStore (st : Nat → OS_TCB) (i : Nat) (t : OS_TCB) : Nat → OS_TCB :=
  fun j => if j = i then t else st j

/-- The mutable kernel state touched by the scheduler, wait and sleep
subsystems: the TCB memory (`store`, indexed by TCB id, `0` = `NULL`), the
static variables `_tasks_pri`, `_tasks_added`, `_ticks`,
`_fast_fail_counter`, `_currentTCB`, `_heap_store`, `_heap_length` and
`_sleep_fail_fast_counter`, and whether `PendSV` has been pended. -/
structure KState where
  store : Nat → OS_TCB
  tasksPri : Nat → Nat
  tasksAdded : Nat
  ticks : Nat
  fastFail : Nat
  current : Nat
  heapStore : Nat → Nat
  heapLength : Nat
  sleepFailFast : Nat
  pendSV : Bool

/-- Update one TCB in the store of a kernel state. -/
def setTCB (s : KState) (i : Nat) (t : OS_TCB) : KState :=
  { s with store := updStore s.store i t }

/-- First write of the non-empty branch of `roundRobin_insertTask`:
`tcb->prev = head; tcb->next = head->next` (the old head `next` is read
before any write). -/
def rrIns1 (st : Nat → OS_TCB) (head t : Nat) : Nat → OS_TCB :=
  updStore st t { st t with prev := head, next := (st head).next }

/-- Second write: `(tcb->prev)->next = tcb`, i.e. `head->next = tcb`,
reading the store as left by `rrIns1`. -/
def rrIns2 (st : Nat → OS_TCB) (head t : Nat) : Nat → OS_TCB :=
  updStore (rrIns1 st head t) head { rrIns1 st head t head with next := t }

/-- Third write: `(tcb->next)->prev = tcb`, re-reading `tcb->next` from the
store as left by `rrIns2`. -/
def rrIns3 (st : Nat → OS_TCB) (head t : Nat) : Nat → OS_TCB :=
  updStore (rrIns2 st head t) ((rrIns2 st head t t).next)
    { rrIns2 st head t ((rrIns2 st head t t).next) with prev := t }

/-- `roundRobin_insertTask` from `simpleRoundRobin.c`: inserts a TCB into
the circular doubly-linked ring of its priority.  If the ring is empty the
TCB becomes the head with `next` pointing to itself (`prev` left alone, as
in the source); otherwise it is spliced in right after the current head. -/
def roundRobin_insertTask (s : KState) (t : Nat) : KState :=
  if s.tasksPri ((s.store t).priority) = 0 then
    { s with store := updStore s.store t { s.store t with next := t }
             tasksPri := updFun s.tasksPri ((s.store t).priority) t }
  else
    { s with store := rrIns3 s.store (s.tasksPri ((s.store t).priority)) t }

/-- First write of the non-singleton branch of `roundRobin_removeTask`:
`(tcb->prev)->next = tcb->next`. -/
def rrRem1 (st : Nat → OS_TCB) (t : Nat) : Nat → OS_TCB :=
  updStore st ((st t).prev) { st ((st t).prev) with next := (st t).next }

/-- Second write: `(tcb->next)->prev = tcb->prev`, re-reading `tcb` fields
from the store as left by `rrRem1`. -/
def rrRem2 (st : Nat → OS_TCB) (t : Nat) : Nat → OS_TCB :=
  updStore (rrRem1 st t) ((rrRem1 st t t).next)
    { rrRem1 st t ((rrRem1 st t t).next) with prev := (rrRem1 st t t).prev }

/-- `roundRobin_removeTask` from `simpleRoundRobin.c`: removes a TCB from
its priority ring.  A singleton (`t->next == t`) empties the ring; otherwise
`t` is spliced out and the head is set to `t->prev` (re-read after the
splice, as in the source), so that the next scheduler run advances to
`t->next`. -/
def roundRobin_removeTask (s : KState) (t : Nat) : KState :=
  if (s.store t).next = t then
    { s with tasksPri := updFun s.tasksPri ((s.store t).priority) 0 }
  else
    { s with store := rrRem2 s.store t
             tasksPri := updFun s.tasksPri ((rrRem2 s.store t t).priority)
               ((rrRem2 s.store t t).prev) }

/-- The splice at the end of the walk loop of `wait_queueInsert`:
`tcb->next = cursor->next; cursor->next = tcb` (order dependent, as the
source notes). -/
def wqSplice (st : Nat → OS_TCB) (cursor t : Nat) : Nat → OS_TCB :=
  updStore (updStore st t { st t with next := (st cursor).next }) cursor
    { updStore st t { st t with next := (st cursor).next } cursor with next := t }

/-- The walk loop of `wait_queueInsert` from `wait.c`: starting at `cursor`,
advance while `cursor->next` exists and `tcb->priority >= cursor->next->priority`
(this is the comparison exactly as written in the source), then splice `t`
between `cursor` and `cursor->next`.  `fuel` bounds the traversal; `none`
models fuel exhaustion (a queue longer than the fuel). -/
def wqWalk (t : Nat) : Nat → Nat → (Nat → OS_TCB) → Option (Nat → OS_TCB)
  | 0, _, _ => none
  | fuel + 1, cursor, st =>
    if (st cursor).next ≠ 0 ∧ (st (st cursor).next).priority ≤ (st t).priority then
      wqWalk t fuel ((st cursor).next) st
    else
      some (wqSplice st cursor t)

/-- The initial `tcb->next = 0` of `wait_queueInsert`. -/
def wqClear (st : Nat → OS_TCB) (t : Nat) : Nat → OS_TCB :=
  updStore st t { st t with next := 0 }

/-- `wait_queueInsert` from `wait.c`: clears `t->next`; an empty queue makes
`t` the head; a head of strictly lower priority than `t` gets `t` prepended;
otherwise the walk loop splices `t` further down.  Returns the updated TCB
store and the new head pointer value. -/
def wait_queueInsert (st : Nat → OS_TCB) (head t : Nat) (fuel : Nat) :
    Option ((Nat → OS_TCB) × Nat) :=
  if head = 0 then some (wqClear st t, t)
  else if (wqClear st t head).priority < (wqClear st t t).priority then
    some (updStore (wqClear st t) t { wqClear st t t with next := head }, t)
  else
    (wqWalk t fuel head (wqClear st t)).map fun st2 => (st2, head)

/-- `wait_queueExtract` from `wait.c`: returns the current head (`0` when
the queue is empty) and, when non-null, moves the head to its `next`. -/
def wait_queueExtract (st : Nat → OS_TCB) (head : Nat) : Nat × Nat :=
  (head, if head ≠ 0 then (st head).next else head)

/-- Read the wait queue off as a list of TCB ids (`fuel`-bounded traversal
of the `next` chain; `none` on fuel exhaustion). -/
def wqToList (st : Nat → OS_TCB) : Nat → Nat → Option (List Nat)
  | 0, _ => none
  | fuel + 1, h =>
    if h = 0 then some []
    else (wqToList st fuel (st h).next).map fun l => h :: l

/-- `roundRobin_wait` from `simpleRoundRobin.c`: if the fail-fast snapshot
still equals `_fast_fail_counter`, remove the current task from its priority
ring, insert it into the resource's wait queue (in that order, as the source
insists), and pend `PendSV`; otherwise return with no change at all.
`qh` is the value of the resource's wait-queue head cell; the updated value
is returned alongside the state. -/
def roundRobin_wait (s : KState) (qh snapshot fuel : Nat) :
    Option (KState × Nat) :=
  if snapshot = s.fastFail then
    (wait_queueInsert (roundRobin_removeTask s s.current).store qh s.current fuel).map
      fun r => ({ roundRobin_removeTask s s.current with store := r.1, pendSV := true }, r.2)
  else some (s, qh)

/-- `roundRobin_notify` from `simpleRoundRobin.c`: extract the wait-queue
head; if a task was waiting, insert it into its priority ring. -/
def roundRobin_notify (s : KState) (qh : Nat) : KState × Nat :=
  (if (wait_queueExtract s.store qh).1 ≠ 0 then
    roundRobin_insertTask s (wait_queueExtract s.store qh).1
  else s, (wait_queueExtract s.store qh).2)

/-- `_svc_OS_taskNotify` from `os.c`: increments `_fast_fail_counter`
(`uint32_t` wraparound) and only then runs the scheduler's notify callback,
which reads the wait-queue head. -/
def svc_OS_taskNotify (s : KState) (qh : Nat) : KState × Nat :=
  roundRobin_notify { s with fastFail := (s.fastFail + 1) % U32 } qh

/-- A read of `_heap_store[i]`: the array has `MAX_TASKS` cells, so an index
at or beyond `MAX_TASKS` is an out-of-bounds access, modelled by `none`. -/
def heapReadK (s : KState) (i : Nat) : Option Nat :=
  if i < MAX_TASKS then some (s.heapStore i) else none

/-- `sleep_taskNeedsAwakening` from `sleep.c`: `0` if the heap is empty;
otherwise `1` exactly when the current tick is after the root task's
wake-tick under the wraparound comparison with reference
`current_ticks + HALF_OF_UINT32_T_MAX`. -/
def sleep_taskNeedsAwakening (s : KState) : Nat :=
  if s.heapLength = 0 then 0
  else if sleep_time1IsAfterTime2 s.ticks ((s.store (s.heapStore 0)).data)
      ((s.ticks + HALF_OF_UINT32_T_MAX) % U32) then 1
  else 0

/-- `sleep_heapSwapElements` from `sleep.c`: swaps two cells of
`_heap_store` (the sub cell is written first, from the saved main value)
and returns the sub index as the updated main index. -/
def sleep_heapSwapElements (hs : Nat → Nat) (iMain iSub : Nat) : (Nat → Nat) × Nat :=
  (updFun (updFun hs iSub (hs iMain)) iMain (hs iSub), iSub)

/-- The parent-index computation of `sleep_heapUp`, split on the parity of
the 1-indexed position exactly as in the source. -/
def heapParent (idx : Nat) : Nat :=
  if (idx + 1) % 2 = 0 then (idx + 1) / 2 - 1 else idx / 2 - 1

/-- The do-while loop of `sleep_heapUp` from `sleep.c`, on the state `s`
with current index `idx`.  In this sequential model no scheduler extraction
can run between the fail-fast read and the swap, so the fail-fast check
always passes and the swap always commits.  Reads of `_heap_store` go
through `heapReadK`; `fuel` bounds the loop. -/
def sleep_heapUpAux : Nat → KState → Nat → Option KState
  | 0, _, _ => none
  | fuel + 1, s, idx =>
    if idx = 0 then some s
    else
      (heapReadK s idx).bind fun a =>
      (heapReadK s (heapParent idx)).bind fun b =>
      if sleep_time1IsAfterTime2 ((s.store a).data) ((s.store b).data)
          ((s.ticks + HALF_OF_UINT32_T_MAX) % U32) then some s
      else
        sleep_heapUpAux fuel
          { s with heapStore := (sleep_heapSwapElements s.heapStore idx (heapParent idx)).1 }
          ((sleep_heapSwapElements s.heapStore idx (heapParent idx)).2)

/-- `sleep_heapInsert` from `sleep.c` (the sleep mutex acquire/release
around it is the identity in this sequential model): writes the TCB at
index `_heap_length`, increments the length, and sifts up from the new last
index (`_heap_length - 1` after the increment).  A full heap would be an
out-of-bounds write (`none`); the kernel keeps `_heap_length ≤ MAX_TASKS`
so this cannot occur in practice. -/
def sleep_heapInsert (fuel : Nat) (s : KState) (t : Nat) : Option KState :=
  if s.heapLength < MAX_TASKS then
    sleep_heapUpAux fuel
      { s with heapStore := updFun s.heapStore s.heapLength t
               heapLength := s.heapLength + 1 }
      (s.heapLength + 1 - 1)
  else none

/-- `OS_sleep` from `sleep.c`: records the wake-tick
`current_time + sleep_in_ms` (`uint32_t` wraparound) in the current TCB's
`data` field, inserts it into the sleep heap, then `_OS_removeTask` removes
it from the runnable ring and pends `PendSV`. -/
def OS_sleep (fuel : Nat) (s : KState) (sleep_in_ms : Nat) : Option KState :=
  (sleep_heapInsert fuel
      (setTCB s s.current
        { s.store s.current with data := (s.ticks + sleep_in_ms) % U32 })
      s.current).map fun s2 =>
    { roundRobin_removeTask s2 s.current with pendSV := true }

/-- The first-child index `2n - 1` (0-indexed) of `sleep_heapDown`. -/
def heapChild1 (idx : Nat) : Nat := 2 * (idx + 1) - 1

/-- The do-while loop of `sleep_heapDown` from `sleep.c`, on state `s` with
current index `idx`: stops when the element has no first child
(`_heap_length <= child_1`) or wakes before its children; otherwise swaps
with the smaller child and continues.  Reads go through `heapReadK`; `fuel`
bounds the loop. -/
def sleep_heapDownAux : Nat → KState → Nat → Option KState
  | 0, _, _ => none
  | fuel + 1, s, idx =>
    if s.heapLength ≤ heapChild1 idx then some s
    else
      (heapReadK s idx).bind fun e =>
      (heapReadK s (heapChild1 idx)).bind fun a =>
      if s.heapLength - 1 = heapChild1 idx then
        if sleep_time1IsAfterTime2 ((s.store a).data) ((s.store e).data)
            ((s.ticks + HALF_OF_UINT32_T_MAX) % U32) then some s
        else
          sleep_heapDownAux fuel
            { s with heapStore := (sleep_heapSwapElements s.heapStore idx (heapChild1 idx)).1 }
            ((sleep_heapSwapElements s.heapStore idx (heapChild1 idx)).2)
      else
        (heapReadK s (heapChild1 idx + 1)).bind fun b =>
        if sleep_time1IsAfterTime2 ((s.store a).data) ((s.store e).data)
            ((s.ticks + HALF_OF_UINT32_T_MAX) % U32) ∧
            sleep_time1IsAfterTime2 ((s.store b).data) ((s.store e).data)
              ((s.ticks + HALF_OF_UINT32_T_MAX) % U32) then some s
        else if sleep_time1IsAfterTime2 ((s.store a).data) ((s.store b).data)
            ((s.ticks + HALF_OF_UINT32_T_MAX) % U32) then
          sleep_heapDownAux fuel
            { s with heapStore := (sleep_heapSwapElements s.heapStore idx (heapChild1 idx + 1)).1 }
            ((sleep_heapSwapElements s.heapStore idx (heapChild1 idx + 1)).2)
        else
          sleep_heapDownAux fuel
            { s with heapStore := (sleep_heapSwapElements s.heapStore idx (heapChild1 idx)).1 }
            ((sleep_heapSwapElements s.heapStore idx (heapChild1 idx)).2)

/-- `sleep_heapExtract` from `sleep.c`, exactly as written, with no
emptiness check: reads the root, executes
`_heap_store[0] = _heap_store[--_heap_length]` (the decrement wraps as
`uint32_t`, so an empty heap yields index `2^32 - 1`, an out-of-bounds read
modelled by `none`), sifts down, and increments
`_sleep_fail_fast_counter`. -/
def sleep_heapExtract (fuel : Nat) (s : KState) : Option (Nat × KState) :=
  (heapReadK s 0).bind fun tcb =>
  (heapReadK { s with heapLength := (s.heapLength + (U32 - 1)) % U32 }
      ((s.heapLength + (U32 - 1)) % U32)).bind fun last =>
  (sleep_heapDownAux fuel
      { s with heapLength := (s.heapLength + (U32 - 1)) % U32
               heapStore := updFun s.heapStore 0 last } 0).map fun s3 =>
    (tcb, { s3 with sleepFailFast := (s3.sleepFailFast + 1) % U32 })

/-- The sleeper-drain loop at the top of `roundRobin_scheduler`:
`while (sleep_taskNeedsAwakening()) roundRobin_insertTask(sleep_heapExtract())`.
`fuel` bounds the loop (each pass shrinks the heap, so any fuel above the
heap length suffices). -/
def drainAux : Nat → KState → Option KState
  | 0, s => if sleep_taskNeedsAwakening s = 0 then some s else none
  | fuel + 1, s =>
    if sleep_taskNeedsAwakening s = 0 then some s
    else
      (sleep_heapExtract fuel s).bind fun r =>
      drainAux fuel (roundRobin_insertTask r.2 r.1)

/-- The priority scan of `roundRobin_scheduler`: from `PRIORITY_MAX` down
to 1, skip empty rings; at the first non-empty ring advance the head to its
`next` and return it.  `none` as the first component models returning the
idle TCB `OS_idleTCB_p`. -/
def roundRobin_schedulerScan : Nat → KState → Option Nat × KState
  | 0, s => (none, s)
  | p + 1, s =>
    if s.tasksPri (p + 1) = 0 then roundRobin_schedulerScan p s
    else
      (some ((s.store (s.tasksPri (p + 1))).next),
        { s with tasksPri :=
            (updFun s.tasksPri (p + 1) ((s.store (s.tasksPri (p + 1))).next)) })

/-- `roundRobin_scheduler` from `simpleRoundRobin.c`: drain due sleepers
back into their rings, then scan priorities from `PRIORITY_MAX` down to 1. -/
def roundRobin_scheduler (fuel : Nat) (s : KState) : Option (Option Nat × KState) :=
  (drainAux fuel s).map (roundRobin_schedulerScan PRIORITY_MAX)

/-- `n` consecutive `roundRobin_scheduler` invocations, collecting the
returned tasks in order. -/
def schedRun (fuel : Nat) : Nat → KState → Option (List (Option Nat) × KState)
  | 0, s => some ([], s)
  | n + 1, s =>
    (roundRobin_scheduler fuel s).bind fun r =>
    (schedRun fuel n r.2).map fun q => (r.1 :: q.1, q.2)

/-- The ring of TCB ids at head `head` is laid out as the list `l`: `l` is
nonempty and duplicate-free, contains no `NULL` id, starts at `head`, and
each element's `next` pointer is the cyclically following element. -/
def isRing (st : Nat → OS_TCB) (head : Nat) (l : List Nat) : Prop :=
  l ≠ [] ∧ l.Nodup ∧ 0 ∉ l ∧ l.getD 0 0 = head ∧
    ∀ i, i < l.length → (st (l.getD i 0)).next = l.getD ((i + 1) % l.length) 0

/-- Scheduler-state hypothesis for the round-robin fairness claim: the sleep
heap is empty, `p` is a user priority whose ring, laid out as `l`, is the
highest non-empty one. -/
def ringHyp (s : KState) (p : Nat) (l : List Nat) : Prop :=
  s.heapLength = 0 ∧ 1 ≤ p ∧ p ≤ PRIORITY_MAX ∧
    (∀ q, p < q → q ≤ PRIORITY_MAX → s.tasksPri q = 0) ∧
    isRing s.store (s.tasksPri p) l

/-- A default TCB (all fields zero). -/
def tcb0 : OS_TCB := ⟨0, 0, 0, 0, 0⟩

/-- Concrete TCB store for evaluating `wait_queueInsert`: tasks 1 and 3 at
priority 2, task 2 at priority 1. -/
def c3Store : Nat → OS_TCB := fun j =>
  if j = 1 then ⟨0, 2, 0, 0, 0⟩
  else if j = 2 then ⟨0, 1, 0, 0, 0⟩
  else if j = 3 then ⟨0, 2, 0, 0, 0⟩
  else tcb0

/-- Insert tasks 1 (priority 2), 2 (priority 1), 3 (priority 2) into an
initially empty wait queue and read off the resulting queue together with
the priorities of tasks 2 and 3. -/
def c3Run : Option (List Nat × Nat × Nat) :=
  (wait_queueInsert c3Store 0 1 9).bind fun r1 =>
  (wait_queueInsert r1.1 r1.2 2 9).bind fun r2 =>
  (wait_queueInsert r2.1 r2.2 3 9).bind fun r3 =>
  (wqToList r3.1 9 r3.2).map fun l => (l, (r3.1 2).priority, (r3.1 3).priority)

/-- Concrete kernel state for the sleep counterexample: tick counter 0, one
running task (id 1, priority 4, alone in its ring), empty sleep heap. -/
def c5State : KState :=
  { store := fun j => if j = 1 then ⟨0, 4, 0, 1, 1⟩ else tcb0
    tasksPri := fun q => if q = 4 then 1 else 0
    tasksAdded := 1
    ticks := 0
    fastFail := 0
    current := 1
    heapStore := fun _ => 0
    heapLength := 0
    sleepFailFast := 0
    pendSV := false }

/-- Concrete kernel state with two tasks (ids 1 and 2, both priority 4)
forming the only non-empty ring, used to witness the scheduler claims. -/
def c2State : KState :=
  { store := fun j =>
      if j = 1 then ⟨0, 4, 0, 2, 2⟩
      else if j = 2 then ⟨0, 4, 0, 1, 1⟩
      else tcb0
    tasksPri := fun q => if q = 4 then 1 else 0
    tasksAdded := 2
    ticks := 0
    fastFail := 0
    current := 1
    heapStore := fun _ => 0
    heapLength := 0
    sleepFailFast := 0
    pendSV := false }

/-- Concrete kernel state with one sleeping task (id 3, wake-tick 100) in
the sleep heap, used to witness the heap-extraction claims. -/
def c10State : KState :=
  { store := fun j => if j = 3 then ⟨0, 4, 100, 3, 3⟩ else tcb0
    tasksPri := fun _ => 0
    tasksAdded := 1
    ticks := 0
    fastFail := 0
    current := 3
    heapStore := fun i => if i = 0 then 3 else 0
    heapLength := 1
    sleepFailFast := 0
    pendSV := false }

/-- The mutex state predicate of the specification:
`counter > 0 ⇔ owner tcb ≠ null`. -/
def mutexInv (m : OS_Mutex) : Prop := 0 < m.counter ↔ m.tcb ≠ 0

/-!
## Theorems
-/

set_option maxRecDepth 8192

theorem updFun_self (f : Nat → Nat) (i v : Nat) : updFun f i v i = v := by
  simp [updFun]

theorem updFun_ne (f : Nat → Nat) (i v j : Nat) (h : j ≠ i) :
    updFun f i v j = f j := by
  simp [updFun, h]

theorem updStore_self (st : Nat → OS_TCB) (i : Nat) (t : OS_TCB) :
    updStore st i t i = t := by
  simp [updStore]

theorem updStore_ne (st : Nat → OS_TCB) (i : Nat) (t : OS_TCB) (j : Nat)
    (h : j ≠ i) : updStore st i t j = st j := by
  simp [updStore, h]

theorem u32_succ_mod (c : Nat) (h : c + 1 < U32) : (c + 1) % U32 = c + 1 :=
  Nat.mod_eq_of_lt h

theorem u32_pred_mod (c : Nat) (h1 : 1 ≤ c) (h2 : c < U32) :
    (c + (U32 - 1)) % U32 = c - 1 := by
  simp only [U32] at *
  omega

/-- C7, part of the semaphore-give claim proved once and for all:
the give path stores if and only if the semaphore is unbounded or not full,
the stored value is `tokens + 1` modulo `2^32`, and an unbounded semaphore
never blocks the giver. -/
theorem C7_semaphoreGive (s : OS_Semaphore) :
    ((OS_semaphoreGive s).isSome ↔ (s.max_tokens = 0 ∨ s.tokens < s.max_tokens)) ∧
    (∀ s2, OS_semaphoreGive s = some s2 →
      s2.tokens = (s.tokens + 1) % U32 ∧ s2.max_tokens = s.max_tokens) ∧
    (s.max_tokens = 0 →
      OS_semaphoreGive s = some { s with tokens := (s.tokens + 1) % U32 }) := by
  refine ⟨?_, ?_, ?_⟩
  · unfold OS_semaphoreGive
    by_cases h : s.tokens < s.max_tokens ∨ s.max_tokens = 0
    · rw [if_pos h]
      simp only [Option.isSome_some, true_iff]
      tauto
    · rw [if_neg h]
      simp only [Option.isSome_none, Bool.false_eq_true, false_iff]
      tauto
  · intro s2 h2
    unfold OS_semaphoreGive at h2
    by_cases h : s.tokens < s.max_tokens ∨ s.max_tokens = 0
    · rw [if_pos h] at h2
      cases h2
      exact ⟨rfl, rfl⟩
    · rw [if_neg h] at h2
      cases h2
  · intro h
    unfold OS_semaphoreGive
    rw [if_pos (Or.inr h)]

theorem C7_semaphoreGive_witness :
    (OS_semaphoreGive ⟨4294967295, 0⟩).isSome ∧
    OS_semaphoreGive ⟨4294967295, 0⟩ = some ⟨0, 0⟩ := by
  have h := C7_semaphoreGive ⟨4294967295, 0⟩
  refine ⟨h.1.mpr (Or.inl rfl), ?_⟩
  have h3 := h.2.2 rfl
  rw [h3]
  norm_num [U32]

/-- C8, counterexample to the claim that release builds store the raw
`init_full` value: at `init_full = 5` the stored token count is 1, not 5,
and the invariant `tokens ≤ max_tokens` still holds, because the clamp
assignment in `OS_semaphoreInitialiseBinary` is ordinary code outside the
`ASSERT_DEBUG` macro. -/
theorem C8_counterexample :
    (OS_semaphoreInitialiseBinary 5).tokens = 1 ∧
    (OS_semaphoreInitialiseBinary 5).tokens ≠ 5 ∧
    (OS_semaphoreInitialiseBinary 5).tokens ≤ (OS_semaphoreInitialiseBinary 5).max_tokens := by
  decide

/-- C8 (amended): `OS_semaphoreInitialiseBinary` clamps `init_full > 1`
down to 1 in every build, so the invariant `tokens ≤ max_tokens` holds
after initialisation. -/
theorem C8_binaryInitialise_clamps (init_full : Nat) :
    (OS_semaphoreInitialiseBinary init_full).tokens ≤
      (OS_semaphoreInitialiseBinary init_full).max_tokens ∧
    (1 < init_full → (OS_semaphoreInitialiseBinary init_full).tokens = 1) ∧
    (init_full ≤ 1 → (OS_semaphoreInitialiseBinary init_full).tokens = init_full) := by
  unfold OS_semaphoreInitialiseBinary
  by_cases h : init_full > 1
  · simp [h]
  · simp [h]
    omega

theorem C8_binaryInitialise_clamps_witness :
    1 < 5 ∧ (OS_semaphoreInitialiseBinary 5).tokens = 1 :=
  ⟨by decide, (C8_binaryInitialise_clamps 5).2.1 (by decide)⟩

/-- C6, counterexample to unconditional preservation of the invariant
`counter > 0 ⇔ tcb ≠ null`: in the state where task 1 owns the mutex with
recursion counter `2^32 - 1`, the invariant holds, a further completed
acquire by the owner completes (the `uint32_t` counter wraps to 0), and the
invariant is then false. -/
theorem C6_counterexample :
    mutexInv ⟨1, 4294967295⟩ ∧
    OS_mutexAcquire 1 ⟨1, 4294967295⟩ = some ⟨1, 0⟩ ∧
    ¬ mutexInv ⟨1, 0⟩ := by
  refine ⟨?_, ?_, ?_⟩
  · simp [mutexInv]
  · simp [OS_mutexAcquire, U32]
  · simp [mutexInv]

theorem mutexAcquireN_owner (t : Nat) :
    ∀ n k, t ≠ 0 → k + n < U32 →
      mutexAcquireN t n ⟨t, k⟩ = some ⟨t, k + n⟩ := by
  intro n
  induction n with
  | zero => intro k _ _; simp [mutexAcquireN]
  | succ m ih =>
    intro k ht hk
    have hstep : OS_mutexAcquire t ⟨t, k⟩ = some ⟨t, k + 1⟩ := by
      unfold OS_mutexAcquire
      rw [if_neg ht, if_pos rfl, u32_succ_mod k (by omega)]
    have h2 : mutexAcquireN t (m + 1) ⟨t, k⟩ = mutexAcquireN t m ⟨t, k + 1⟩ := by
      show (OS_mutexAcquire t ⟨t, k⟩).bind (mutexAcquireN t m) = _
      rw [hstep, Option.some_bind]
    rw [h2, ih (k + 1) ht (by omega)]
    have heq : k + 1 + m = k + (m + 1) := by omega
    rw [heq]

/-- C6 (amended): the invariant `counter > 0 ⇔ tcb ≠ null` holds after
`OS_mutexInitialise`, is preserved by every completed `OS_mutexAcquire`
whose incremented counter does not wrap `2^32`, and by every
`OS_mutexRelease`; a release by a non-owner changes nothing; and after `n`
acquires by a task from a free mutex, each of the first `n - 1` releases
just decrements the counter while the `n`-th (and only the `n`-th) zeroes
it, clears the owner and notifies the wait queue. -/
theorem C6_mutexInvariant :
    mutexInv OS_mutexInitialise ∧
    (∀ cur m m2, cur ≠ 0 → mutexInv m → m.counter + 1 < U32 →
      OS_mutexAcquire cur m = some m2 → mutexInv m2) ∧
    (∀ cur m, cur ≠ 0 → m.counter < U32 → mutexInv m →
      mutexInv (OS_mutexRelease cur m).1) ∧
    (∀ cur m, m.tcb ≠ cur → OS_mutexRelease cur m = (m, false)) ∧
    (∀ t n, t ≠ 0 → n < U32 → mutexAcquireN t n ⟨0, 0⟩ = some ⟨t, n⟩ ∨ n = 0) ∧
    (∀ t c, t ≠ 0 → 1 < c → c < U32 →
      OS_mutexRelease t ⟨t, c⟩ = (⟨t, c - 1⟩, false)) ∧
    (∀ t, t ≠ 0 → OS_mutexRelease t ⟨t, 1⟩ = (⟨0, 0⟩, true)) := by
  refine ⟨by simp [mutexInv, OS_mutexInitialise], ?_, ?_, ?_, ?_, ?_, ?_⟩
  · intro cur m m2 hcur hinv hlt hacq
    unfold OS_mutexAcquire at hacq
    by_cases h0 : m.tcb = 0
    · rw [if_pos h0] at hacq
      cases hacq
      have hc0 : m.counter = 0 := by
        by_contra hne
        exact (hinv.mp (Nat.pos_of_ne_zero hne)) h0
      have h1 : (m.counter + 1) % U32 = 1 := by
        rw [hc0]
        norm_num [U32]
      dsimp only [mutexInv]
      rw [h1]
      simp [hcur]
    · rw [if_neg h0] at hacq
      by_cases hc : m.tcb = cur
      · rw [if_pos hc] at hacq
        cases hacq
        dsimp only [mutexInv]
        rw [u32_succ_mod m.counter hlt]
        exact ⟨fun _ => h0, fun _ => by omega⟩
      · rw [if_neg hc] at hacq
        cases hacq
  · intro cur m hcur hlt hinv
    unfold OS_mutexRelease
    by_cases h : cur = m.tcb
    · have hpos : 0 < m.counter := hinv.mpr (by rw [← h]; exact hcur)
      rw [if_pos h, u32_pred_mod m.counter (by omega) hlt]
      by_cases hz : m.counter - 1 = 0
      · rw [if_pos hz]
        dsimp only [mutexInv]
        rw [hz]
        simp
      · rw [if_neg hz]
        dsimp only [mutexInv]
        exact ⟨fun _ => by rw [← h]; exact hcur, fun _ => by omega⟩
    · rw [if_neg h]
      exact hinv
  · intro cur m h
    unfold OS_mutexRelease
    rw [if_neg (fun he => h he.symm)]
  · intro t n ht hn
    cases n with
    | zero => exact Or.inr rfl
    | succ k =>
      left
      have hstep : OS_mutexAcquire t ⟨0, 0⟩ = some ⟨t, 1⟩ := by
        unfold OS_mutexAcquire
        rw [if_pos rfl]
        norm_num [U32]
      have h2 : mutexAcquireN t (k + 1) ⟨0, 0⟩ = mutexAcquireN t k ⟨t, 1⟩ := by
        show (OS_mutexAcquire t ⟨0, 0⟩).bind (mutexAcquireN t k) = _
        rw [hstep, Option.some_bind]
      rw [h2, mutexAcquireN_owner t k 1 ht (by omega)]
      have heq : 1 + k = k + 1 := by omega
      rw [heq]
  · intro t c ht h1 h2
    unfold OS_mutexRelease
    rw [if_pos rfl, u32_pred_mod c (by omega) h2, if_neg (by omega)]
  · intro t ht
    unfold OS_mutexRelease
    rw [if_pos rfl, u32_pred_mod 1 (by omega) (by simp [U32]), if_pos rfl]

theorem C6_mutexInvariant_witness :
    (3 : Nat) ≠ 0 ∧ mutexAcquireN 3 2 ⟨0, 0⟩ = some ⟨3, 2⟩ ∧
    OS_mutexRelease 3 ⟨3, 2⟩ = (⟨3, 1⟩, false) ∧
    OS_mutexRelease 3 ⟨3, 1⟩ = (⟨0, 0⟩, true) := by
  have h := C6_mutexInvariant
  refine ⟨by decide, ?_, ?_, h.2.2.2.2.2.2 3 (by decide)⟩
  · rcases h.2.2.2.2.1 3 2 (by decide) (by norm_num [U32]) with h2 | h2
    · exact h2
    · cases h2
  · exact h.2.2.2.2.2.1 3 2 (by decide) (by decide) (by norm_num [U32])

/-- C9: from any pool state, `OS_memPoolDeallocate` of block `b` makes `b`
the free-list head with the first word of `b` pointing at the previous
head, and an immediately following `OS_memPoolAllocate` returns `b` and
restores the previous head (and the previous semaphore count): the pool is
LIFO. -/
theorem C9_memPool_lifo (cur b : Nat) (p : OS_MemPool)
    (hm : p.mutex_rw = OS_mutexInitialise)
    (hgive : p.block_avail.tokens < p.block_avail.max_tokens ∨
      p.block_avail.max_tokens = 0)
    (hlt : p.block_avail.tokens + 1 < U32) :
    ∃ p2, OS_memPoolDeallocate cur p b = some p2 ∧
      p2.head = b ∧ p2.mem b = p.head ∧
      OS_memPoolAllocate cur p2 =
        some (b, { p2 with head := p.head, block_avail := p.block_avail }) := by
  have hacq : OS_mutexAcquire cur p.mutex_rw = some ⟨cur, 1⟩ := by
    rw [hm]
    unfold OS_mutexAcquire OS_mutexInitialise
    rw [if_pos rfl, u32_succ_mod 0 (by simp [U32])]
  have hrel : OS_mutexRelease cur ⟨cur, 1⟩ = (⟨0, 0⟩, true) := by
    unfold OS_mutexRelease
    rw [if_pos rfl, u32_pred_mod 1 (by omega) (by simp [U32]), if_pos rfl]
  have hsem : OS_semaphoreGive p.block_avail =
      some ⟨p.block_avail.tokens + 1, p.block_avail.max_tokens⟩ := by
    unfold OS_semaphoreGive
    rcases hgive with h | h
    · rw [if_pos (Or.inl h), u32_succ_mod _ hlt]
    · rw [if_pos (Or.inr h), u32_succ_mod _ hlt]
  refine ⟨{ memPool_add p b with
      block_avail := ⟨p.block_avail.tokens + 1, p.block_avail.max_tokens⟩
      mutex_rw := ⟨0, 0⟩ }, ?_, ?_, ?_, ?_⟩
  · simp only [OS_memPoolDeallocate, memPool_add, hacq, Option.some_bind, hsem,
      Option.map_some', hrel]
  · rfl
  · show updFun p.mem b p.head b = p.head
    exact updFun_self p.mem b p.head
  · have htake : OS_semaphoreTake
        ⟨p.block_avail.tokens + 1, p.block_avail.max_tokens⟩ =
        some ⟨p.block_avail.tokens, p.block_avail.max_tokens⟩ := by
      simp only [OS_semaphoreTake, Nat.add_sub_cancel]
      rw [if_pos (by omega)]
    have hacq2 : OS_mutexAcquire cur (⟨0, 0⟩ : OS_Mutex) = some ⟨cur, 1⟩ := by
      unfold OS_mutexAcquire
      rw [if_pos rfl]
      norm_num [U32]
    simp only [OS_memPoolAllocate, memPool_add, htake, Option.some_bind, hacq2,
      Option.map_some', hrel, updFun_self]

theorem C9_memPool_lifo_witness :
    ∃ p2, OS_memPoolDeallocate 7
        { head := 0, mem := fun _ => 0, mutex_rw := OS_mutexInitialise
          block_avail := ⟨0, 4⟩ } 100 = some p2 ∧
      p2.head = 100 ∧ p2.mem 100 = 0 ∧
      OS_memPoolAllocate 7 p2 =
        some (100, { p2 with head := 0, block_avail := (⟨0, 4⟩ : OS_Semaphore) }) := by
  exact C9_memPool_lifo 7 100 _ rfl (by norm_num) (by norm_num [U32])

/-- C3: `wait_queueInsert` walks past strictly-lower-priority waiters (its
walk condition advances while `tcb->priority >= cursor->next->priority`),
so inserting tasks of priorities 2, 1, 2 into an empty queue yields the
queue order `[1, 2, 3]` with the priority-1 task (id 2) ahead of the
priority-2 task (id 3): the head is then not the highest-priority waiter,
contradicting the claimed placement before the first strictly-lower
waiter. -/
theorem C3_wait_queue_priority_inversion :
    c3Run = some ([1, 2, 3], 1, 2) := by
  decide

theorem roundRobin_insertTask_fastFail (s : KState) (t : Nat) :
    (roundRobin_insertTask s t).fastFail = s.fastFail := by
  unfold roundRobin_insertTask
  split <;> rfl

/-- C4: when the fail-fast snapshot differs from `_fast_fail_counter`, the
scheduler wait callback returns with the state (rings, wait queue, PendSV)
completely unchanged; when it matches, the current task is removed from its
ring, inserted into the resource's wait queue, and PendSV is pended (shown
both as the exact composition and, for a singleton ring and empty queue, by
the resulting observable state); and `_svc_OS_taskNotify` increments the
fail-fast counter before the notify callback reads the wait-queue head. -/
theorem C4_wait_fail_fast (s : KState) (qh snapshot fuel : Nat) :
    (snapshot ≠ s.fastFail → roundRobin_wait s qh snapshot fuel = some (s, qh)) ∧
    (snapshot = s.fastFail →
      roundRobin_wait s qh snapshot fuel =
        (wait_queueInsert (roundRobin_removeTask s s.current).store qh s.current fuel).map
          fun r => ({ roundRobin_removeTask s s.current with store := r.1, pendSV := true }, r.2)) ∧
    (snapshot = s.fastFail → (s.store s.current).next = s.current → qh = 0 →
      ∃ s2, roundRobin_wait s qh snapshot fuel = some (s2, s.current) ∧
        s2.pendSV = true ∧ s2.fastFail = s.fastFail ∧
        s2.tasksPri ((s.store s.current).priority) = 0 ∧
        (s2.store s.current).next = 0) ∧
    ((svc_OS_taskNotify s qh).1.fastFail = (s.fastFail + 1) % U32 ∧
      svc_OS_taskNotify s qh =
        roundRobin_notify { s with fastFail := (s.fastFail + 1) % U32 } qh) := by
  refine ⟨?_, ?_, ?_, ?_, rfl⟩
  · intro h
    unfold roundRobin_wait
    rw [if_neg h]
  · intro h
    unfold roundRobin_wait
    rw [if_pos h]
  · intro h1 h2 h3
    subst h3
    unfold roundRobin_wait
    rw [if_pos h1]
    unfold roundRobin_removeTask
    rw [if_pos h2]
    unfold wait_queueInsert
    rw [if_pos rfl, Option.map_some']
    refine ⟨_, rfl, rfl, rfl, ?_, ?_⟩
    · exact updFun_self _ _ _
    · show (wqClear s.store s.current s.current).next = 0
      unfold wqClear
      rw [updStore_self]
  · unfold svc_OS_taskNotify roundRobin_notify
    split
    · rw [roundRobin_insertTask_fastFail]
    · rfl

theorem C4_wait_fail_fast_witness :
    ((1 : Nat) ≠ c5State.fastFail ∧
      roundRobin_wait c5State 0 1 9 = some (c5State, 0)) ∧
    (∃ s2, roundRobin_wait c5State 0 0 9 = some (s2, 1) ∧
      s2.pendSV = true ∧ s2.fastFail = 0 ∧ s2.tasksPri 4 = 0 ∧
      (s2.store 1).next = 0) := by
  constructor
  · exact ⟨by decide, (C4_wait_fail_fast c5State 0 1 9).1 (by decide)⟩
  · exact (C4_wait_fail_fast c5State 0 0 9).2.2.1 rfl (by decide) rfl

theorem sleep_heapDownAux_shape :
    ∀ fuel s idx s2, sleep_heapDownAux fuel s idx = some s2 →
      ∃ hs, s2 = { s with heapStore := hs } := by
  intro fuel
  induction fuel with
  | zero => intro s idx s2 h; cases h
  | succ f ih =>
    intro s idx s2 h
    unfold sleep_heapDownAux at h
    by_cases hc : s.heapLength ≤ heapChild1 idx
    · rw [if_pos hc] at h
      cases h
      exact ⟨s.heapStore, rfl⟩
    · rw [if_neg hc] at h
      rcases he : heapReadK s idx with _ | e
      · rw [he] at h; simp at h
      rw [he, Option.some_bind] at h
      rcases ha : heapReadK s (heapChild1 idx) with _ | a
      · rw [ha] at h; simp at h
      rw [ha, Option.some_bind] at h
      by_cases h1 : s.heapLength - 1 = heapChild1 idx
      · rw [if_pos h1] at h
        by_cases h2 : sleep_time1IsAfterTime2 ((s.store a).data) ((s.store e).data)
            ((s.ticks + HALF_OF_UINT32_T_MAX) % U32) = true
        · rw [if_pos h2] at h
          cases h
          exact ⟨s.heapStore, rfl⟩
        · rw [if_neg h2] at h
          obtain ⟨hs, rfl⟩ := ih _ _ _ h
          exact ⟨hs, rfl⟩
      · rw [if_neg h1] at h
        rcases hb : heapReadK s (heapChild1 idx + 1) with _ | b
        · rw [hb] at h; simp at h
        rw [hb, Option.some_bind] at h
        by_cases h2 : (sleep_time1IsAfterTime2 ((s.store a).data) ((s.store e).data)
            ((s.ticks + HALF_OF_UINT32_T_MAX) % U32) = true ∧
            sleep_time1IsAfterTime2 ((s.store b).data) ((s.store e).data)
              ((s.ticks + HALF_OF_UINT32_T_MAX) % U32) = true)
        · rw [if_pos h2] at h
          cases h
          exact ⟨s.heapStore, rfl⟩
        · rw [if_neg h2] at h
          by_cases h3 : sleep_time1IsAfterTime2 ((s.store a).data) ((s.store b).data)
              ((s.ticks + HALF_OF_UINT32_T_MAX) % U32) = true
          · rw [if_pos h3] at h
            obtain ⟨hs, rfl⟩ := ih _ _ _ h
            exact ⟨hs, rfl⟩
          · rw [if_neg h3] at h
            obtain ⟨hs, rfl⟩ := ih _ _ _ h
            exact ⟨hs, rfl⟩

theorem sleep_heapDownAux_isSome :
    ∀ fuel idx s, s.heapLength ≤ MAX_TASKS →
      s.heapLength ≤ 2 ^ (fuel - 1) * (idx + 1) → 1 ≤ fuel →
      (sleep_heapDownAux fuel s idx).isSome := by
  intro fuel
  induction fuel with
  | zero => intro idx s _ _ h; omega
  | succ f ih =>
    intro idx s hmax hbound _
    unfold sleep_heapDownAux
    by_cases hc : s.heapLength ≤ heapChild1 idx
    · rw [if_pos hc]
      exact Option.isSome_some
    · rw [if_neg hc]
      have hch : heapChild1 idx = 2 * idx + 1 := by
        unfold heapChild1; omega
      have hlen : heapChild1 idx < s.heapLength := by omega
      have hidx : idx < MAX_TASKS := by omega
      have hc1 : heapChild1 idx < MAX_TASKS := by omega
      have hf : 1 ≤ f := by
        rcases Nat.eq_zero_or_pos f with h0 | h1
        · subst h0
          have hb : s.heapLength ≤ idx + 1 := by
            calc s.heapLength ≤ 2 ^ (0 + 1 - 1) * (idx + 1) := hbound
              _ = idx + 1 := by norm_num
          omega
        · exact h1
      have hrec : s.heapLength ≤ 2 ^ (f - 1) * (heapChild1 idx + 1) := by
        have h2 : 2 ^ (f + 1 - 1) * (idx + 1) = 2 ^ (f - 1) * (2 * (idx + 1)) := by
          have : f + 1 - 1 = (f - 1) + 1 := by omega
          rw [this, pow_succ]
          ring
        rw [h2] at hbound
        have : 2 * (idx + 1) ≤ heapChild1 idx + 1 := by omega
        calc s.heapLength ≤ 2 ^ (f - 1) * (2 * (idx + 1)) := hbound
          _ ≤ 2 ^ (f - 1) * (heapChild1 idx + 1) := by
              exact Nat.mul_le_mul_left _ this
      rw [show heapReadK s idx = some (s.heapStore idx) from if_pos hidx,
        Option.some_bind,
        show heapReadK s (heapChild1 idx) = some (s.heapStore (heapChild1 idx)) from
          if_pos hc1, Option.some_bind]
      by_cases h1 : s.heapLength - 1 = heapChild1 idx
      · rw [if_pos h1]
        by_cases h2 : sleep_time1IsAfterTime2 ((s.store (s.heapStore (heapChild1 idx))).data)
            ((s.store (s.heapStore idx)).data)
            ((s.ticks + HALF_OF_UINT32_T_MAX) % U32) = true
        · rw [if_pos h2]
          exact Option.isSome_some
        · rw [if_neg h2]
          exact ih (heapChild1 idx) _ hmax hrec hf
      · rw [if_neg h1]
        have hc2 : heapChild1 idx + 1 < MAX_TASKS := by omega
        rw [show heapReadK s (heapChild1 idx + 1) =
            some (s.heapStore (heapChild1 idx + 1)) from if_pos hc2, Option.some_bind]
        have hrec2 : s.heapLength ≤ 2 ^ (f - 1) * (heapChild1 idx + 1 + 1) := by
          calc s.heapLength ≤ 2 ^ (f - 1) * (heapChild1 idx + 1) := hrec
            _ ≤ 2 ^ (f - 1) * (heapChild1 idx + 1 + 1) := by
                exact Nat.mul_le_mul_left _ (by omega)
        split
        · exact Option.isSome_some
        · split
          · exact ih (heapChild1 idx + 1) _ hmax hrec2 hf
          · exact ih (heapChild1 idx) _ hmax hrec hf

theorem roundRobin_insertTask_heap (s : KState) (t : Nat) :
    (roundRobin_insertTask s t).heapLength = s.heapLength ∧
    (roundRobin_insertTask s t).heapStore = s.heapStore ∧
    (roundRobin_insertTask s t).ticks = s.ticks := by
  unfold roundRobin_insertTask
  split <;> exact ⟨rfl, rfl, rfl⟩

theorem sleep_heapExtract_success (f : Nat) (s : KState)
    (hf : 5 ≤ f) (hpos : 0 < s.heapLength) (hmax : s.heapLength ≤ MAX_TASKS) :
    ∃ s2, sleep_heapExtract f s = some (s.heapStore 0, s2) ∧
      s2.heapLength = s.heapLength - 1 ∧ s2.ticks = s.ticks ∧
      s2.store = s.store ∧ s2.tasksPri = s.tasksPri := by
  have hd : (s.heapLength + (U32 - 1)) % U32 = s.heapLength - 1 :=
    u32_pred_mod s.heapLength hpos (by unfold MAX_TASKS U32 at *; omega)
  have hlt : s.heapLength - 1 < MAX_TASKS := by
    unfold MAX_TASKS at *; omega
  unfold sleep_heapExtract
  rw [hd]
  rw [show heapReadK s 0 = some (s.heapStore 0) from if_pos (by unfold MAX_TASKS; omega)]
  simp only [Option.some_bind]
  rw [show heapReadK { s with heapLength := s.heapLength - 1 } (s.heapLength - 1) =
    some (s.heapStore (s.heapLength - 1)) from if_pos hlt]
  simp only [Option.some_bind]
  have hsome := sleep_heapDownAux_isSome f 0
    { s with heapLength := s.heapLength - 1
             heapStore := updFun s.heapStore 0 (s.heapStore (s.heapLength - 1)) }
    (by show s.heapLength - 1 ≤ MAX_TASKS; omega)
    (by show s.heapLength - 1 ≤ 2 ^ (f - 1) * (0 + 1)
        have h16 : (16 : Nat) ≤ 2 ^ (f - 1) := by
          calc (16 : Nat) = 2 ^ 4 := by norm_num
            _ ≤ 2 ^ (f - 1) := Nat.pow_le_pow_right (by omega) (by omega)
        unfold MAX_TASKS at hmax
        omega)
    (by omega)
  rcases hdown : sleep_heapDownAux f
      { s with heapLength := s.heapLength - 1
               heapStore := updFun s.heapStore 0 (s.heapStore (s.heapLength - 1)) } 0
    with _ | s3
  · rw [hdown] at hsome
    simp at hsome
  · obtain ⟨hs, rfl⟩ := sleep_heapDownAux_shape f _ 0 s3 hdown
    simp only [Option.map_some']
    exact ⟨_, rfl, rfl, rfl, rfl, rfl⟩

theorem drainAux_succ (g : Nat) (s : KState) :
    drainAux (g + 1) s = if sleep_taskNeedsAwakening s = 0 then some s
      else (sleep_heapExtract g s).bind fun r =>
        drainAux g (roundRobin_insertTask r.2 r.1) := rfl

theorem drainAux_isSome :
    ∀ f s, s.heapLength ≤ MAX_TASKS → s.heapLength + 5 ≤ f →
      (drainAux f s).isSome := by
  intro f
  induction f with
  | zero => intro s _ hf; omega
  | succ g ih =>
    intro s hmax hf
    rw [drainAux_succ]
    by_cases hn : sleep_taskNeedsAwakening s = 0
    · rw [if_pos hn]
      exact Option.isSome_some
    · rw [if_neg hn]
      have hpos : 0 < s.heapLength := by
        by_contra h0
        have h1 : s.heapLength = 0 := by omega
        apply hn
        unfold sleep_taskNeedsAwakening
        rw [if_pos h1]
      obtain ⟨s2, hex, hlen, _, _, _⟩ :=
        sleep_heapExtract_success g s (by omega) hpos hmax
      rw [hex, Option.some_bind]
      apply ih
      · rw [(roundRobin_insertTask_heap s2 (s.heapStore 0)).1, hlen]
        omega
      · rw [(roundRobin_insertTask_heap s2 (s.heapStore 0)).1, hlen]
        omega

/-- C10: `sleep_heapExtract` has no emptiness check.  Under the
precondition `0 < _heap_length ≤ MAX_TASKS` it returns the root
`_heap_store[0]` and decreases the length by exactly one; on an empty heap
the decrement `--_heap_length` wraps to `2^32 - 1` and the copy
`_heap_store[0] = _heap_store[--_heap_length]` reads out of bounds
(modelled by `none`).  The kernel call site is safe because
`sleep_taskNeedsAwakening` returns 0 whenever the heap is empty and is
checked first: the scheduler drain loop always completes. -/
theorem C10_heapExtract_precondition (f : Nat) (s : KState) :
    (5 ≤ f → 0 < s.heapLength → s.heapLength ≤ MAX_TASKS →
      ∃ s2, sleep_heapExtract f s = some (s.heapStore 0, s2) ∧
        s2.heapLength = s.heapLength - 1) ∧
    (s.heapLength = 0 →
      (s.heapLength + (U32 - 1)) % U32 = U32 - 1 ∧ sleep_heapExtract f s = none) ∧
    (s.heapLength = 0 → sleep_taskNeedsAwakening s = 0) ∧
    (sleep_taskNeedsAwakening s ≠ 0 → 0 < s.heapLength) ∧
    (s.heapLength ≤ MAX_TASKS → s.heapLength + 5 ≤ f → (drainAux f s).isSome) := by
  refine ⟨?_, ?_, ?_, ?_, ?_⟩
  · intro hf hpos hmax
    obtain ⟨s2, h1, h2, _⟩ := sleep_heapExtract_success f s hf hpos hmax
    exact ⟨s2, h1, h2⟩
  · intro h0
    constructor
    · rw [h0]
      norm_num [U32]
    · unfold sleep_heapExtract
      rw [show heapReadK s 0 = some (s.heapStore 0) from
        if_pos (by unfold MAX_TASKS; omega), Option.some_bind, h0]
      rw [show heapReadK { s with heapLength := (0 + (U32 - 1)) % U32 }
          ((0 + (U32 - 1)) % U32) = none from
        if_neg (by norm_num [U32, MAX_TASKS])]
      rfl
  · intro h0
    unfold sleep_taskNeedsAwakening
    rw [if_pos h0]
  · intro hne
    unfold sleep_taskNeedsAwakening at hne
    by_cases h0 : s.heapLength = 0
    · rw [if_pos h0] at hne
      exact absurd rfl hne
    · omega
  · exact drainAux_isSome f s

theorem C10_heapExtract_precondition_witness :
    (∃ s2, sleep_heapExtract 5 c10State = some (c10State.heapStore 0, s2) ∧
      s2.heapLength = c10State.heapLength - 1) ∧
    (drainAux 6 c10State).isSome := by
  have h := C10_heapExtract_precondition 5 c10State
  refine ⟨h.1 (by omega) (by decide) (by decide), ?_⟩
  exact (C10_heapExtract_precondition 6 c10State).2.2.2.2 (by decide) (by decide)

theorem sleep_heapUpAux_shape :
    ∀ fuel s idx s2, sleep_heapUpAux fuel s idx = some s2 →
      ∃ hs, s2 = { s with heapStore := hs } := by
  intro fuel
  induction fuel with
  | zero => intro s idx s2 h; cases h
  | succ f ih =>
    intro s idx s2 h
    unfold sleep_heapUpAux at h
    by_cases h0 : idx = 0
    · rw [if_pos h0] at h
      cases h
      exact ⟨s.heapStore, rfl⟩
    · rw [if_neg h0] at h
      rcases ha : heapReadK s idx with _ | a
      · rw [ha] at h; simp at h
      rw [ha, Option.some_bind] at h
      rcases hb : heapReadK s (heapParent idx) with _ | b
      · rw [hb] at h; simp at h
      rw [hb, Option.some_bind] at h
      by_cases h2 : sleep_time1IsAfterTime2 ((s.store a).data) ((s.store b).data)
          ((s.ticks + HALF_OF_UINT32_T_MAX) % U32) = true
      · rw [if_pos h2] at h
        cases h
        exact ⟨s.heapStore, rfl⟩
      · rw [if_neg h2] at h
        obtain ⟨hs, rfl⟩ := ih _ _ _ h
        exact ⟨hs, rfl⟩

theorem heapParent_lt (idx : Nat) (h : idx ≠ 0) : heapParent idx < idx := by
  unfold heapParent
  split <;> omega

theorem sleep_heapUpAux_isSome :
    ∀ fuel idx s, idx < s.heapLength → s.heapLength ≤ MAX_TASKS → idx < fuel →
      (sleep_heapUpAux fuel s idx).isSome := by
  intro fuel
  induction fuel with
  | zero => intro idx s _ _ h; omega
  | succ f ih =>
    intro idx s hidx hmax _
    unfold sleep_heapUpAux
    by_cases h0 : idx = 0
    · rw [if_pos h0]
      exact Option.isSome_some
    · rw [if_neg h0]
      have hp := heapParent_lt idx h0
      rw [show heapReadK s idx = some (s.heapStore idx) from if_pos (by omega),
        Option.some_bind,
        show heapReadK s (heapParent idx) = some (s.heapStore (heapParent idx)) from
          if_pos (by omega), Option.some_bind]
      split
      · exact Option.isSome_some
      · exact ih (heapParent idx) _ (show heapParent idx < s.heapLength by omega)
          hmax (by omega)

theorem updStore_data (st : Nat → OS_TCB) (i : Nat) (rec : OS_TCB) (x : Nat)
    (h : rec.data = (st i).data) : (updStore st i rec x).data = (st x).data := by
  unfold updStore
  by_cases hx : x = i
  · subst hx
    rw [if_pos rfl, h]
  · rw [if_neg hx]

theorem rrRem2_data (st : Nat → OS_TCB) (t x : Nat) :
    (rrRem2 st t x).data = (st x).data := by
  have h1 : ∀ y, (rrRem1 st t y).data = (st y).data := by
    intro y
    unfold rrRem1
    exact updStore_data _ _ _ _ rfl
  unfold rrRem2
  exact (updStore_data (rrRem1 st t) ((rrRem1 st t t).next)
    { rrRem1 st t ((rrRem1 st t t).next) with prev := (rrRem1 st t t).prev } x rfl).trans
    (h1 x)

theorem roundRobin_removeTask_data (s : KState) (t x : Nat) :
    ((roundRobin_removeTask s t).store x).data = (s.store x).data := by
  unfold roundRobin_removeTask
  split
  · rfl
  · exact rrRem2_data s.store t x

theorem roundRobin_removeTask_heap (s : KState) (t : Nat) :
    (roundRobin_removeTask s t).heapLength = s.heapLength ∧
    (roundRobin_removeTask s t).heapStore = s.heapStore := by
  unfold roundRobin_removeTask
  split <;> exact ⟨rfl, rfl⟩

theorem sleep_heapInsert_success (f : Nat) (s : KState) (t : Nat)
    (hlen : s.heapLength < MAX_TASKS) (hf : s.heapLength < f) :
    ∃ s2, sleep_heapInsert f s t = some s2 ∧ s2.store = s.store ∧
      s2.heapLength = s.heapLength + 1 ∧ s2.ticks = s.ticks := by
  unfold sleep_heapInsert
  rw [if_pos hlen]
  have hsome := sleep_heapUpAux_isSome f (s.heapLength + 1 - 1)
    { s with heapStore := updFun s.heapStore s.heapLength t
             heapLength := s.heapLength + 1 }
    (show s.heapLength + 1 - 1 < s.heapLength + 1 by omega)
    (show s.heapLength + 1 ≤ MAX_TASKS by omega)
    (by omega)
  rcases hup : sleep_heapUpAux f
      { s with heapStore := updFun s.heapStore s.heapLength t
               heapLength := s.heapLength + 1 } (s.heapLength + 1 - 1) with _ | s3
  · rw [hup] at hsome
    simp at hsome
  · obtain ⟨hs, rfl⟩ := sleep_heapUpAux_shape f _ _ s3 hup
    exact ⟨_, rfl, rfl, rfl, rfl⟩

theorem OS_sleep_success (f : Nat) (s : KState) (d : Nat)
    (hlen : s.heapLength < MAX_TASKS) (hf : s.heapLength < f) :
    ∃ s2, OS_sleep f s d = some s2 ∧
      (s2.store s.current).data = (s.ticks + d) % U32 ∧
      s2.heapLength = s.heapLength + 1 := by
  obtain ⟨s2, hins, hstore, hlen2, _⟩ := sleep_heapInsert_success f
    (setTCB s s.current { s.store s.current with data := (s.ticks + d) % U32 })
    s.current hlen hf
  have hOS : OS_sleep f s d =
      (sleep_heapInsert f
        (setTCB s s.current { s.store s.current with data := (s.ticks + d) % U32 })
        s.current).map
        (fun s3 => { roundRobin_removeTask s3 s.current with pendSV := true }) := rfl
  rw [hOS, hins, Option.map_some']
  refine ⟨_, rfl, ?_, ?_⟩
  · have hp : (({ roundRobin_removeTask s2 s.current with pendSV := true } : KState).store
        s.current).data = ((roundRobin_removeTask s2 s.current).store s.current).data := rfl
    rw [hp, roundRobin_removeTask_data, hstore]
    show ((updStore s.store s.current
      { s.store s.current with data := (s.ticks + d) % U32 }) s.current).data = _
    rw [updStore_self]
  · have hp : ({ roundRobin_removeTask s2 s.current with pendSV := true } : KState).heapLength
        = (roundRobin_removeTask s2 s.current).heapLength := rfl
    rw [hp, (roundRobin_removeTask_heap _ _).1, hlen2]
    rfl

theorem sleep_needsAwakening_char (st : KState) (s d t : Nat)
    (hne : st.heapLength ≠ 0) (ht : st.ticks = t)
    (hdata : (st.store (st.heapStore 0)).data = (s + d) % U32)
    (hd : d ≤ 2 ^ 31 - 2) :
    (u32sub t s ≤ d → sleep_taskNeedsAwakening st = 0) ∧
    (d < u32sub t s → u32sub t s ≤ d + 2 ^ 31 + 1 →
      sleep_taskNeedsAwakening st = 1) := by
  have hd2 : d ≤ 2147483646 := by
    have : (2 : Nat) ^ 31 - 2 = 2147483646 := by norm_num
    omega
  unfold sleep_taskNeedsAwakening
  rw [if_neg hne, ht, hdata]
  constructor
  · intro hu
    have hcond : sleep_time1IsAfterTime2 t ((s + d) % U32)
        ((t + HALF_OF_UINT32_T_MAX) % U32) = false := by
      unfold sleep_time1IsAfterTime2
      rw [decide_eq_false_iff_not]
      unfold u32sub U32 HALF_OF_UINT32_T_MAX at *
      omega
    rw [hcond]
    simp
  · intro hu1 hu2
    have hu2b : u32sub t s ≤ d + 2147483648 + 1 := by
      have : (2 : Nat) ^ 31 = 2147483648 := by norm_num
      omega
    have hcond : sleep_time1IsAfterTime2 t ((s + d) % U32)
        ((t + HALF_OF_UINT32_T_MAX) % U32) = true := by
      unfold sleep_time1IsAfterTime2
      rw [decide_eq_true_eq]
      unfold u32sub U32 HALF_OF_UINT32_T_MAX at *
      omega
    rw [hcond]
    simp

theorem sleep_time1IsAfterTime2_window (now a1 a2 : Nat)
    (h1 : a1 ≤ 2 ^ 31 - 2) (h2 : a2 ≤ 2 ^ 31 - 2) :
    (sleep_time1IsAfterTime2 ((now + a1) % U32) ((now + a2) % U32)
      ((now + HALF_OF_UINT32_T_MAX) % U32) = true ↔ a2 < a1) := by
  have h1b : a1 ≤ 2147483646 := by
    have : (2 : Nat) ^ 31 - 2 = 2147483646 := by norm_num
    omega
  have h2b : a2 ≤ 2147483646 := by
    have : (2 : Nat) ^ 31 - 2 = 2147483646 := by norm_num
    omega
  unfold sleep_time1IsAfterTime2
  rw [decide_eq_true_eq]
  unfold u32sub U32 HALF_OF_UINT32_T_MAX
  omega

/-- C5, counterexample to the claim as stated: the code's wraparound
reference is `now + (2^31 - 1)`, not `now + 2^31`, so at the claimed
maximum duration `d = 2^31 - 1` a task that goes to sleep at tick 0 is
reported due for awakening immediately (`sleep_taskNeedsAwakening = 1`)
although `(t - s) mod 2^32 = 0 ≤ d`. -/
theorem C5_counterexample :
    (OS_sleep 16 c5State 2147483647).map sleep_taskNeedsAwakening = some 1 ∧
    (2147483647 : Nat) < 2 ^ 31 ∧
    u32sub c5State.ticks c5State.ticks ≤ 2147483647 := by
  refine ⟨by decide, by norm_num, by decide⟩

/-- C5 (amended): `OS_sleep d` records wake-tick `s + d (mod 2^32)` in the
TCB `data` field; with the code's reference `now + (2^31 - 1)` and for
every duration `d ≤ 2^31 - 2`, while that task is the heap root
`sleep_taskNeedsAwakening` returns 0 whenever `(t - s) mod 2^32 ≤ d` and
returns 1 once `d < (t - s) mod 2^32 ≤ d + 2^31 + 1`; and the comparison
macro with that reference agrees with true temporal order for wake offsets
up to `2^31 - 2` from the current tick. -/
theorem C5_sleep_amended :
    (∀ f s d, s.heapLength < MAX_TASKS → s.heapLength < f →
      ∃ s2, OS_sleep f s d = some s2 ∧
        (s2.store s.current).data = (s.ticks + d) % U32 ∧
        s2.heapLength = s.heapLength + 1) ∧
    (∀ st s d t, st.heapLength ≠ 0 → st.ticks = t →
      (st.store (st.heapStore 0)).data = (s + d) % U32 →
      d ≤ 2 ^ 31 - 2 →
      (u32sub t s ≤ d → sleep_taskNeedsAwakening st = 0) ∧
      (d < u32sub t s → u32sub t s ≤ d + 2 ^ 31 + 1 →
        sleep_taskNeedsAwakening st = 1)) ∧
    (∀ now a1 a2, a1 ≤ 2 ^ 31 - 2 → a2 ≤ 2 ^ 31 - 2 →
      (sleep_time1IsAfterTime2 ((now + a1) % U32) ((now + a2) % U32)
        ((now + HALF_OF_UINT32_T_MAX) % U32) = true ↔ a2 < a1)) :=
  ⟨OS_sleep_success, sleep_needsAwakening_char, sleep_time1IsAfterTime2_window⟩

theorem C5_sleep_amended_witness :
    (∃ s2, OS_sleep 1 c5State 7 = some s2 ∧
      (s2.store 1).data = (0 + 7) % U32 ∧ s2.heapLength = 1) ∧
    (sleep_time1IsAfterTime2 ((5 + 3) % U32) ((5 + 2) % U32)
      ((5 + HALF_OF_UINT32_T_MAX) % U32) = true) := by
  constructor
  · exact C5_sleep_amended.1 1 c5State 7 (by decide) (by decide)
  · exact (C5_sleep_amended.2.2 5 3 2 (by norm_num) (by norm_num)).mpr (by norm_num)

theorem getD_rotate (l : List Nat) (n i : Nat) (h : i < l.length) :
    (l.rotate n).getD i 0 = l.getD ((i + n) % l.length) 0 := by
  have h0 : 0 < l.length := by omega
  have h1 : i < (l.rotate n).length := by
    rw [List.length_rotate]
    exact h
  have h2 : (i + n) % l.length < l.length := Nat.mod_lt _ h0
  rw [List.getD_eq_getElem _ _ h1, List.getD_eq_getElem _ _ h2, List.getElem_rotate]

theorem getD_mem (l : List Nat) (i : Nat) (h : i < l.length) : l.getD i 0 ∈ l := by
  rw [List.getD_eq_getElem _ _ h]
  exact List.getElem_mem h

theorem isRing_rotate (st : Nat → OS_TCB) (h : Nat) (l : List Nat)
    (hr : isRing st h l) : isRing st (l.getD (1 % l.length) 0) (l.rotate 1) := by
  obtain ⟨hne, hnd, h0, hhead, hcyc⟩ := hr
  have hlen : 0 < l.length := List.length_pos.mpr hne
  refine ⟨?_, ?_, ?_, ?_, ?_⟩
  · intro hnil
    exact hne (List.rotate_eq_nil_iff.mp hnil)
  · exact (List.rotate_perm l 1).symm.nodup hnd
  · intro hm
    exact h0 (List.mem_rotate.mp hm)
  · have := getD_rotate l 1 0 hlen
    simpa using this
  · intro i hi
    rw [List.length_rotate] at hi
    have hi2 : (i + 1) % l.length < l.length := Nat.mod_lt _ hlen
    rw [getD_rotate l 1 i hi, List.length_rotate, getD_rotate l 1 ((i + 1) % l.length) hi2]
    exact hcyc ((i + 1) % l.length) hi2

theorem scan_succ (p : Nat) (s : KState) :
    roundRobin_schedulerScan (p + 1) s =
      if s.tasksPri (p + 1) = 0 then roundRobin_schedulerScan p s
      else (some ((s.store (s.tasksPri (p + 1))).next),
        { s with tasksPri :=
            (updFun s.tasksPri (p + 1) ((s.store (s.tasksPri (p + 1))).next)) }) := rfl

theorem scan_skip : ∀ (m p : Nat) (s : KState), p ≤ m →
    (∀ q, p < q → q ≤ m → s.tasksPri q = 0) →
    roundRobin_schedulerScan m s = roundRobin_schedulerScan p s := by
  intro m
  induction m with
  | zero =>
    intro p s hp _
    have h1 : p = 0 := by omega
    rw [h1]
  | succ k ih =>
    intro p s hp he
    by_cases hpm : p = k + 1
    · rw [hpm]
    · have hq : s.tasksPri (k + 1) = 0 := he (k + 1) (by omega) (by omega)
      rw [scan_succ, if_pos hq]
      exact ih p s (by omega) (fun q h1 h2 => he q h1 (by omega))

theorem scan_empty : ∀ (m : Nat) (s : KState),
    (∀ q, 1 ≤ q → q ≤ m → s.tasksPri q = 0) →
    roundRobin_schedulerScan m s = (none, s) := by
  intro m
  induction m with
  | zero => intro s _; rfl
  | succ k ih =>
    intro s he
    rw [scan_succ, if_pos (he (k + 1) (by omega) (by omega))]
    exact ih s (fun q h1 h2 => he q h1 (by omega))

theorem scan_none_inv : ∀ (m : Nat) (s r : KState),
    roundRobin_schedulerScan m s = (none, r) →
    (∀ q, 1 ≤ q → q ≤ m → s.tasksPri q = 0) ∧ r = s := by
  intro m
  induction m with
  | zero =>
    intro s r h
    have h2 : s = r := congrArg Prod.snd h
    exact ⟨fun q h1 h2 => by omega, h2.symm⟩
  | succ k ih =>
    intro s r h
    rw [scan_succ] at h
    by_cases hq : s.tasksPri (k + 1) = 0
    · rw [if_pos hq] at h
      obtain ⟨hall, hr⟩ := ih s r h
      refine ⟨fun q h1 h2 => ?_, hr⟩
      by_cases hqk : q = k + 1
      · rw [hqk]; exact hq
      · exact hall q h1 (by omega)
    · rw [if_neg hq] at h
      simp at h

theorem drainAux_zero (s : KState) :
    drainAux 0 s = if sleep_taskNeedsAwakening s = 0 then some s else none := rfl

theorem drain_empty (f : Nat) (s : KState) (h : s.heapLength = 0) :
    drainAux f s = some s := by
  have hn : sleep_taskNeedsAwakening s = 0 := by
    unfold sleep_taskNeedsAwakening
    rw [if_pos h]
  cases f with
  | zero => rw [drainAux_zero, if_pos hn]
  | succ g => rw [drainAux_succ, if_pos hn]

theorem ringHyp_step (s : KState) (p : Nat) (l : List Nat) (f : Nat)
    (h : ringHyp s p l) :
    roundRobin_scheduler f s =
      some (some (l.getD (1 % l.length) 0),
        { s with tasksPri := (updFun s.tasksPri p (l.getD (1 % l.length) 0)) }) ∧
    ringHyp { s with tasksPri := (updFun s.tasksPri p (l.getD (1 % l.length) 0)) } p
      (l.rotate 1) := by
  obtain ⟨hheap, hp1, hpm, habove, hring⟩ := h
  obtain ⟨hne, hnd, h0, hhead, hcyc⟩ := hring
  have hlen : 0 < l.length := List.length_pos.mpr hne
  have hhne : s.tasksPri p ≠ 0 := by
    have hm := getD_mem l 0 hlen
    rw [hhead] at hm
    intro hz
    rw [hz] at hm
    exact h0 hm
  obtain ⟨p0, rfl⟩ : ∃ p0, p = p0 + 1 := ⟨p - 1, by omega⟩
  have hsched : roundRobin_scheduler f s =
      some (roundRobin_schedulerScan PRIORITY_MAX s) := by
    unfold roundRobin_scheduler
    rw [drain_empty f s hheap, Option.map_some']
  have hnext : (s.store (s.tasksPri (p0 + 1))).next = l.getD (1 % l.length) 0 := by
    have hc := hcyc 0 hlen
    rw [hhead] at hc
    simpa using hc
  constructor
  · rw [hsched, scan_skip PRIORITY_MAX (p0 + 1) s hpm habove, scan_succ, if_neg hhne,
      hnext]
  · have hrot := isRing_rotate s.store (s.tasksPri (p0 + 1)) l ⟨hne, hnd, h0, hhead, hcyc⟩
    refine ⟨hheap, hp1, hpm, ?_, ?_⟩
    · intro q hq1 hq2
      show updFun s.tasksPri (p0 + 1) (l.getD (1 % l.length) 0) q = 0
      rw [updFun_ne _ _ _ q (by omega)]
      exact habove q hq1 hq2
    · show isRing s.store
        (updFun s.tasksPri (p0 + 1) (l.getD (1 % l.length) 0) (p0 + 1)) (l.rotate 1)
      rw [updFun_self]
      exact hrot

theorem take_succ_head_rotate (L : List Nat) (n : Nat) (hne : L ≠ [])
    (hn : n + 1 ≤ L.length) :
    L.take (n + 1) = L.getD 0 0 :: (L.rotate 1).take n := by
  cases L with
  | nil => cases hne rfl
  | cons a t =>
    have hrot : (a :: t).rotate 1 = t ++ [a] := by
      rw [List.rotate_cons_succ, List.rotate_zero]
    rw [hrot, List.take_succ_cons, List.getD_cons_zero, List.take_append_eq_append_take]
    have hz : n - t.length = 0 := by
      have := hn
      simp only [List.length_cons] at this
      omega
    rw [hz]
    simp

theorem schedRun_succ (f n : Nat) (s : KState) :
    schedRun f (n + 1) s = (roundRobin_scheduler f s).bind fun r =>
      (schedRun f n r.2).map fun q => (r.1 :: q.1, q.2) := rfl

theorem ringHyp_run : ∀ (n f : Nat) (s : KState) (p : Nat) (l : List Nat),
    ringHyp s p l → n ≤ l.length →
    ∃ s2, schedRun f n s = some (((l.rotate 1).take n).map some, s2) ∧
      ringHyp s2 p (l.rotate n) := by
  intro n
  induction n with
  | zero =>
    intro f s p l h _
    refine ⟨s, rfl, ?_⟩
    rw [List.rotate_zero]
    exact h
  | succ n ih =>
    intro f s p l h hn
    have hne : l ≠ [] := h.2.2.2.2.1
    have hlen : 0 < l.length := List.length_pos.mpr hne
    have hstep := ringHyp_step s p l f h
    obtain ⟨s2, hrun, hr2⟩ := ih f _ p (l.rotate 1) hstep.2
      (by rw [List.length_rotate]; omega)
    refine ⟨s2, ?_, ?_⟩
    · rw [schedRun_succ, hstep.1, Option.some_bind, hrun, Option.map_some']
      have hl := take_succ_head_rotate (l.rotate 1) n
        (fun hx => hne (List.rotate_eq_nil_iff.mp hx))
        (by rw [List.length_rotate]; omega)
      have hh : (l.rotate 1).getD 0 0 = l.getD (1 % l.length) 0 := by
        have := getD_rotate l 1 0 hlen
        simpa using this
      rw [hh] at hl
      rw [hl]
      rfl
    · rw [List.rotate_rotate, Nat.add_comm 1 n] at hr2
      exact hr2

/-- C2: after reinserting any due sleepers (the drain loop), the scheduler
scan picks the highest priority `p` in `[1, PRIORITY_MAX]` with a non-empty
ring, advances `head[p]` to `head[p]->next` and returns the new head; it
returns the idle TCB (modelled by `none`) if and only if all rings
`1..PRIORITY_MAX` are empty; and for a stable ring of `k` tasks at the
highest non-empty priority with an empty sleep heap, `k` consecutive
invocations return the `k` ring members exactly once each (the output list
is the rotation `l.rotate 1` of the ring layout, a permutation of it). -/
theorem C2_roundRobin_scheduler (f : Nat) (s : KState) :
    (∀ s1, drainAux f s = some s1 →
      ((roundRobin_scheduler f s = some (none, s1) ↔
          ∀ q, 1 ≤ q → q ≤ PRIORITY_MAX → s1.tasksPri q = 0) ∧
        (∀ p, 1 ≤ p → p ≤ PRIORITY_MAX →
          (∀ q, p < q → q ≤ PRIORITY_MAX → s1.tasksPri q = 0) →
          s1.tasksPri p ≠ 0 →
          roundRobin_scheduler f s =
            some (some ((s1.store (s1.tasksPri p)).next),
              { s1 with tasksPri :=
                  (updFun s1.tasksPri p ((s1.store (s1.tasksPri p)).next)) })))) ∧
    (∀ p l, ringHyp s p l →
      ∃ s2, schedRun f l.length s = some ((l.rotate 1).map some, s2) ∧
        List.Perm (l.rotate 1) l ∧ ∀ x, x ∈ l → (l.rotate 1).count x = 1) := by
  constructor
  · intro s1 hdrain
    have hsched : roundRobin_scheduler f s =
        some (roundRobin_schedulerScan PRIORITY_MAX s1) := by
      unfold roundRobin_scheduler
      rw [hdrain, Option.map_some']
    constructor
    · constructor
      · intro heq
        rw [hsched] at heq
        exact (scan_none_inv PRIORITY_MAX s1 s1 (Option.some.inj heq)).1
      · intro hall
        rw [hsched, scan_empty PRIORITY_MAX s1 hall]
    · intro p hp1 hpm habove hpne
      obtain ⟨p0, rfl⟩ : ∃ p0, p = p0 + 1 := ⟨p - 1, by omega⟩
      rw [hsched, scan_skip PRIORITY_MAX (p0 + 1) s1 hpm habove, scan_succ, if_neg hpne]
  · intro p l h
    have hne : l ≠ [] := h.2.2.2.2.1
    have hnd : l.Nodup := h.2.2.2.2.2.1
    obtain ⟨s2, hrun, _⟩ := ringHyp_run l.length f s p l h (le_refl _)
    have ht : (l.rotate 1).take l.length = l.rotate 1 := by
      rw [← List.length_rotate l 1]
      exact List.take_length _
    rw [ht] at hrun
    refine ⟨s2, hrun, List.rotate_perm l 1, ?_⟩
    intro x hx
    rw [(List.rotate_perm l 1).count_eq]
    exact List.count_eq_one_of_mem hnd hx

theorem C2_roundRobin_scheduler_witness :
    (roundRobin_scheduler 0 c2State =
      some (some 2, { c2State with tasksPri := (updFun c2State.tasksPri 4 2) })) ∧
    (∃ s2, schedRun 0 2 c2State = some ([some 2, some 1], s2)) := by
  have h := C2_roundRobin_scheduler 0 c2State
  constructor
  · exact (h.1 c2State rfl).2 4 (by omega) (by decide)
      (fun q h1 h2 => by
        have h3 : q ≤ 4 := h2
        omega)
      (by decide)
  · have hr : ringHyp c2State 4 [1, 2] := by
      refine ⟨rfl, by omega, by decide, ?_, ?_⟩
      · intro q h1 h2
        have h3 : q ≤ 4 := h2
        omega
      · refine ⟨by decide, by decide, by decide, by decide, ?_⟩
        intro i hi
        have h2 : i < 2 := hi
        interval_cases i <;> decide
    obtain ⟨s2, hrun, _⟩ := h.2 4 [1, 2] hr
    exact ⟨s2, hrun⟩

/-- C1: with `item_size = 1` the queue wraps its write cursor one slot
early (`end` points at the last byte and the advance check is
`head >= end`), so the second enqueue overwrites the first item while both
read tokens remain: enqueuing bytes `[5]` then `[9]` into a fresh
2-element, 1-byte queue and dequeuing twice yields `[9]` and `[9]` - the
first item is lost and the second duplicated, violating FIFO. -/
theorem C1_queue_overwrite :
    ((OS_queueEnqueue 7 (OS_queueInitialise 2 1) [5]).bind fun q1 =>
     (OS_queueEnqueue 7 q1 [9]).bind fun q2 =>
     (OS_queueDequeue 7 q2).bind fun r1 =>
     (OS_queueDequeue 7 r1.2).map fun r2 => (r1.1, r2.1)) = some ([9], [9]) := by
  decide

end DocetOS
